import Mathlib

/-!
Verification of the Tegra234 pin-configuration driver (pinctrl-tegra234.c).

The driver's register model is embedded shallowly: registers are a map from
(bank, offset) to 32-bit values (Nat, read back modulo 2^32, mirroring `u32`
reads), pin-group descriptors are a structure mirroring `struct tegra_pingroup`
as it is populated by the `PINGROUP`, `PIN_PINGROUP_ENTRY_Y` and
`DRV_PINGROUP_ENTRY_Y/N` macros, and each driver operation becomes a pure
function on that state.  Fields the C designated initializers never mention are
zero (C semantics for partially-initialized static structs).

`struct tegra_pingroup` itself is declared in pinctrl-tegra234.h, which is not
part of the provided sources; its field set is reconstructed from every access
the .c file makes and from the initializing macros.
-/

namespace Tegra234

/-- Register file: value stored per (bank, register offset).  Stored values
are arbitrary naturals; every read truncates to 32 bits, as hardware `u32`
reads do. -/
def RegState : Type := Int → Int → Nat

/-- Bitwise complement on a 32-bit quantity: `~x` of the C code, where the
result is only ever used conjoined with 32-bit values. -/
def compl32 (x : Nat) : Nat := 0xFFFFFFFF ^^^ x

/-- Mirrors `pmx_readl`: `readl(pmx->regs[bank] + reg)`, a 32-bit read. -/
def pmx_readl (s : RegState) (bank reg : Int) : Nat := s bank reg % 2 ^ 32

/-- Mirrors `pmx_writel`: `writel_relaxed(val, pmx->regs[bank] + reg)` (the
read-back it issues for posted-write flushing does not change state). -/
def pmx_writel (s : RegState) (val : Nat) (bank reg : Int) : RegState :=
  fun b r => if b = bank ∧ r = reg then val else s b r

/-- enum tegra_pinconf_param (pinctrl-tegra234.h, as used by the .c file). -/
inductive Param where
  | pull | tristate | enable_input | open_drain | lock | ioreset | rcv_sel
  | loopback | high_speed_mode | schmitt | low_power_mode
  | drive_down_strength | drive_up_strength | slew_rate_falling
  | slew_rate_rising | drive_type | func | pad_power
  deriving DecidableEq, Repr

/-- Distinct failure modes of `tegra_pinconf_group_set`.  The C function
returns `-ENOTSUPP` for an unsupported parameter and `-EINVAL` for the other
two, distinguishing them by the message it logs ("LOCK bit cannot be cleared"
resp. "too big for ... bit register"). -/
inductive SetErr where
  | unsupported | lockCannotBeCleared | valueOutOfRange
  deriving DecidableEq, Repr

/-- Result of `tegra_pinctrl_set_mux`.  `einval` is the C `-EINVAL` return
(mux register absent, or function not among the group's four slots).  `undef`
marks the paths on which the C code would shift by a negative amount
(`0x3 << g->mux_bit` or `1 << g->sfsel_bit` with a negative field), which is
undefined behavior in C and therefore has no defined register write. -/
inductive SetMuxResult where
  | einval
  | undef
  | ok (s : RegState)

/-- The (bank, reg, bit, width) quadruple `tegra_pinconf_reg` reports through
its out-parameters. -/
structure RegLoc where
  bank : Int
  reg : Int
  bit : Int
  width : Int
  deriving DecidableEq, Repr

/-- The per-catalog flags of `struct tegra_pinctrl_soc_data` consulted by the
register-resolution and mux code.  The catalog arrays (pins, groups,
functions) are passed explicitly to the operations that need them. -/
structure tegra_pinctrl_soc_data where
  hsm_in_mux : Bool
  schmitt_in_mux : Bool
  drvtype_in_mux : Bool
  sfsel_in_mux : Bool
  deriving DecidableEq, Repr

/-- struct tegra_pingroup, with the fields the driver reads.  Register
offsets and bit positions are signed (`s32`/`s8` in C) with `-1` as the
"absent" sentinel. -/
structure tegra_pingroup where
  name : String
  pins : List Nat
  npins : Nat
  funcs : List Nat
  mux_reg : Int
  mux_bank : Int
  mux_bit : Int
  pupd_reg : Int
  pupd_bank : Int
  pupd_bit : Int
  tri_reg : Int
  tri_bank : Int
  tri_bit : Int
  einput_bit : Int
  odrain_bit : Int
  lock_bit : Int
  ioreset_bit : Int
  rcv_sel_bit : Int
  lpbk_reg : Int
  lpbk_bank : Int
  lpbk_bit : Int
  hsm_bit : Int
  schmitt_bit : Int
  lpmd_bit : Int
  drvdn_bit : Int
  drvdn_width : Int
  drvup_bit : Int
  drvup_width : Int
  slwf_bit : Int
  slwf_width : Int
  slwr_bit : Int
  slwr_width : Int
  drvtype_bit : Int
  drv_reg : Int
  drv_bank : Int
  sfsel_bit : Int
  lpdr_bit : Int
  pad_reg : Int
  pad_bank : Int
  pad_bit : Int
  parked_bitmask : Nat

/-- Mirrors `tegra_pinconf_reg`: select the (bank, reg, bit, width) for a
parameter on a group; `none` is the `-ENOTSUPP` return taken when the
selected register offset or bit position is negative (absent sentinel).
The `report_err` argument only controls logging and is dropped. -/
def tegra_pinconf_reg (pmx : tegra_pinctrl_soc_data) (g : tegra_pingroup)
    (param : Param) : Option RegLoc :=
  let loc : RegLoc :=
    match param with
    | .pull => ⟨g.pupd_bank, g.pupd_reg, g.pupd_bit, 2⟩
    | .tristate => ⟨g.tri_bank, g.tri_reg, g.tri_bit, 1⟩
    | .enable_input => ⟨g.mux_bank, g.mux_reg, g.einput_bit, 1⟩
    | .open_drain => ⟨g.mux_bank, g.mux_reg, g.odrain_bit, 1⟩
    | .lock => ⟨g.mux_bank, g.mux_reg, g.lock_bit, 1⟩
    | .ioreset => ⟨g.mux_bank, g.mux_reg, g.ioreset_bit, 1⟩
    | .rcv_sel => ⟨g.mux_bank, g.mux_reg, g.rcv_sel_bit, 1⟩
    | .loopback => ⟨g.lpbk_bank, g.lpbk_reg, g.lpbk_bit, 1⟩
    | .high_speed_mode =>
        if pmx.hsm_in_mux then ⟨g.mux_bank, g.mux_reg, g.hsm_bit, 1⟩
        else ⟨g.drv_bank, g.drv_reg, g.hsm_bit, 1⟩
    | .schmitt =>
        if pmx.schmitt_in_mux then ⟨g.mux_bank, g.mux_reg, g.schmitt_bit, 1⟩
        else ⟨g.drv_bank, g.drv_reg, g.schmitt_bit, 1⟩
    | .low_power_mode => ⟨g.drv_bank, g.drv_reg, g.lpmd_bit, 2⟩
    | .drive_down_strength => ⟨g.drv_bank, g.drv_reg, g.drvdn_bit, g.drvdn_width⟩
    | .drive_up_strength => ⟨g.drv_bank, g.drv_reg, g.drvup_bit, g.drvup_width⟩
    | .slew_rate_falling => ⟨g.drv_bank, g.drv_reg, g.slwf_bit, g.slwf_width⟩
    | .slew_rate_rising => ⟨g.drv_bank, g.drv_reg, g.slwr_bit, g.slwr_width⟩
    | .drive_type =>
        if pmx.drvtype_in_mux then ⟨g.mux_bank, g.mux_reg, g.drvtype_bit, 2⟩
        else ⟨g.drv_bank, g.drv_reg, g.drvtype_bit, 2⟩
    | .func => ⟨g.mux_bank, g.mux_reg, g.mux_bit, 2⟩
    | .pad_power => ⟨g.pad_bank, g.pad_reg, g.pad_bit, 1⟩
  if loc.reg < 0 ∨ loc.bit < 0 then none else some loc

/-- Mirrors `tegra_pinconf_group_get`: resolve the parameter's register
location, read it, extract `width` bits at `bit` (the extracted argument is a
`u16` in C, hence the reduction modulo 2^16), and invert the bit for the
hardware-inverted pad-power parameter. -/
def tegra_pinconf_group_get (pmx : tegra_pinctrl_soc_data) (g : tegra_pingroup)
    (s : RegState) (param : Param) : Option Nat :=
  match tegra_pinconf_reg pmx g param with
  | none => none
  | some loc =>
    let val := pmx_readl s loc.bank loc.reg
    let mask := (1 <<< loc.width.toNat) - 1
    let arg := ((val >>> loc.bit.toNat) &&& mask) % 2 ^ 16
    let arg := if param = Param.pad_power then (if arg = 0 then 1 else 0) else arg
    some arg

/-- One iteration of the `for each config` loop body of
`tegra_pinconf_group_set`: unpack (the packed argument is a `u16`, hence the
initial reduction modulo 2^16), invert pad-power, resolve the register,
read it, reject clearing a set lock bit, coerce a 1-bit argument to a
canonical boolean, range-check, and read-modify-write the field. -/
def tegra_pinconf_group_set_one (pmx : tegra_pinctrl_soc_data)
    (g : tegra_pingroup) (param : Param) (arg : Nat) (s : RegState) :
    Except SetErr RegState :=
  let arg := arg % 2 ^ 16
  let arg := if param = Param.pad_power then (if arg = 0 then 1 else 0) else arg
  match tegra_pinconf_reg pmx g param with
  | none => .error .unsupported
  | some loc =>
    let val := pmx_readl s loc.bank loc.reg
    if param = Param.lock ∧ val &&& (1 <<< loc.bit.toNat) ≠ 0 ∧ arg = 0 then
      .error .lockCannotBeCleared
    else
      let arg := if loc.width = 1 then (if arg = 0 then 0 else 1) else arg
      let mask := (1 <<< loc.width.toNat) - 1
      if arg &&& compl32 mask ≠ 0 then
        .error .valueOutOfRange
      else
        let val := val &&& compl32 (mask <<< loc.bit.toNat)
        let val := val ||| (arg <<< loc.bit.toNat)
        .ok (pmx_writel s val loc.bank loc.reg)

/-- Mirrors `tegra_pinconf_group_set`: apply the configs in list order; the
first failing parameter makes the function return its error immediately
(`return ret` / `return -EINVAL` inside the loop), keeping the register
writes already performed.  The pair carries the error (if any) together with
the final register state. -/
def tegra_pinconf_group_set (pmx : tegra_pinctrl_soc_data)
    (g : tegra_pingroup) (configs : List (Param × Nat)) (s : RegState) :
    Option SetErr × RegState :=
  match configs with
  | [] => (none, s)
  | (param, arg) :: rest =>
    match tegra_pinconf_group_set_one pmx g param arg s with
    | .error e => (some e, s)
    | .ok s' => tegra_pinconf_group_set pmx g rest s'

/-- Mirrors `tegra_pinctrl_set_mux`: reject an absent mux register, scan the
four function slots for the requested function (`findIdx` returns the list
length when nothing matches, exactly like the C loop counter), then
read-modify-write the 2-bit mux field, additionally asserting the
SFIO-select bit when the catalog routes it through the mux register.  The
shifts `0x3 << g->mux_bit` and `1 << g->sfsel_bit` are C undefined behavior
when the bit field is negative; those paths produce `undef`. -/
def tegra_pinctrl_set_mux (pmx : tegra_pinctrl_soc_data) (g : tegra_pingroup)
    (function : Nat) (s : RegState) : SetMuxResult :=
  if g.mux_reg < 0 then .einval
  else
    let i := g.funcs.findIdx (· == function)
    if i = g.funcs.length then .einval
    else if g.mux_bit < 0 then .undef
    else
      let val := pmx_readl s g.mux_bank g.mux_reg
      let val := val &&& compl32 (3 <<< g.mux_bit.toNat)
      let val := val ||| (i <<< g.mux_bit.toNat)
      if pmx.sfsel_in_mux ∧ g.sfsel_bit < 0 then .undef
      else
        let val := if pmx.sfsel_in_mux then val ||| (1 <<< g.sfsel_bit.toNat) else val
        .ok (pmx_writel s val g.mux_bank g.mux_reg)

/-- The bank `tegra_pinctrl_clear_parked_bits` targets for a group: the mux
bank when the mux register is present (`g->mux_reg != -1`), else the drive
bank. -/
def parked_bank (g : tegra_pingroup) : Int :=
  if g.mux_reg ≠ -1 then g.mux_bank else g.drv_bank

/-- The register offset `tegra_pinctrl_clear_parked_bits` targets for a
group: the mux register when present, else the drive register. -/
def parked_reg (g : tegra_pingroup) : Int :=
  if g.mux_reg ≠ -1 then g.mux_reg else g.drv_reg

/-- Mirrors `tegra_pinctrl_clear_parked_bits`: for every group with a nonzero
parked bitmask, read the group's primary register, clear the parked bits
(`val &= ~g->parked_bitmask`), write back. -/
def tegra_pinctrl_clear_parked_bits (gs : List tegra_pingroup) (s : RegState) :
    RegState :=
  match gs with
  | [] => s
  | g :: rest =>
    let s' :=
      if g.parked_bitmask > 0 then
        let val := pmx_readl s (parked_bank g) (parked_reg g)
        pmx_writel s (val &&& compl32 g.parked_bitmask) (parked_bank g) (parked_reg g)
      else s
    tegra_pinctrl_clear_parked_bits rest s'

/-- The group-lookup loop shared by `tegra_pinctrl_gpio_save_config` and
`tegra_pinctrl_gpio_restore_config`: the first group with exactly one member
pin equal to the requested pin offset; the C falls through to an `-EINVAL`
return when the loop counter reaches `ngroups`. -/
def find_single_pin_group (gs : List tegra_pingroup) (offset : Nat) :
    Option tegra_pingroup :=
  gs.find? (fun g => g.npins == 1 && g.pins.head? == some offset)

/-- Driver state carried across a GPIO request/release cycle: the registers
plus the per-pin `pmx->gpio_conf` shadow area. -/
structure PmxState where
  regs : RegState
  gpio_conf : Nat → Nat

/-- Mirrors `tegra_pinctrl_gpio_save_config`: locate the single-pin group
owning the pin and, if its mux register is present, save the current mux
register value indexed by pin. -/
def tegra_pinctrl_gpio_save_config (gs : List tegra_pingroup) (offset : Nat)
    (st : PmxState) : Except Unit PmxState :=
  match find_single_pin_group gs offset with
  | none => .error ()
  | some g =>
    if 0 ≤ g.mux_reg then
      .ok { st with gpio_conf :=
        fun p => if p = offset then pmx_readl st.regs g.mux_bank g.mux_reg
                 else st.gpio_conf p }
    else .ok st

/-- Mirrors `tegra_pinctrl_gpio_restore_config` (invoked by
`tegra_pinctrl_gpio_disable_free`): locate the owning single-pin group and,
if its mux register is present, write the saved value back verbatim. -/
def tegra_pinctrl_gpio_restore_config (gs : List tegra_pingroup) (offset : Nat)
    (st : PmxState) : Except Unit PmxState :=
  match find_single_pin_group gs offset with
  | none => .error ()
  | some g =>
    if 0 ≤ g.mux_reg then
      .ok { st with regs := pmx_writel st.regs (st.gpio_conf offset) g.mux_bank g.mux_reg }
    else .ok st

/-!
Catalog fragment: the tegra234 rows the claims exercise.

Function identifiers are the positions in `enum tegra_mux_dt`, generated from
`T234_FUNCTION_TABLE` in declaration order (GP is entry 0, UARTC entry 1, ...).
Only the identifiers referenced by the embedded group rows are named here.
-/

def TEGRA_MUX_GP : Nat := 0
def TEGRA_MUX_CAN0 : Nat := 6
def TEGRA_MUX_EQOS : Nat := 16
def TEGRA_MUX_QSPI : Nat := 30
def TEGRA_MUX_SDMMC1 : Nat := 31
def TEGRA_MUX_TOUCH : Nat := 54
def TEGRA_MUX_RSVD1 : Nat := 56
def TEGRA_MUX_RSVD2 : Nat := 72
def TEGRA_MUX_RSVD3 : Nat := 84

/-- The fields contributed by the `drive_<group>` macro
(`DRV_PINGROUP_ENTRY_Y` or `DRV_PINGROUP_ENTRY_N`). -/
structure drv_entry where
  drv_reg : Int
  drv_bank : Int
  drvdn_bit : Int
  drvdn_width : Int
  drvup_bit : Int
  drvup_width : Int
  slwr_bit : Int
  slwr_width : Int
  slwf_bit : Int
  slwf_width : Int

/-- DRV_PINGROUP_ENTRY_N: drive register absent; the width fields are not
mentioned by any initializer and are therefore zero. -/
def DRV_PINGROUP_ENTRY_N : drv_entry :=
  ⟨-1, -1, -1, 0, -1, 0, -1, 0, -1, 0⟩

/-- DRV_PINGROUP_ENTRY_Y. -/
def DRV_PINGROUP_ENTRY_Y (r drvdn_b drvdn_w drvup_b drvup_w slwr_b slwr_w
    slwf_b slwf_w bank : Int) : drv_entry :=
  ⟨r, bank, drvdn_b, drvdn_w, drvup_b, drvup_w, slwr_b, slwr_w, slwf_b, slwf_w⟩

/-- The `PINGROUP` table macro combined with `PIN_PINGROUP_ENTRY_Y`:
mux/pupd/tri/lpbk registers all live at offset `r` of `bank`; `mux_bit` is 0,
`pupd_bit` 2, `tri_bit` 4, `drvtype_bit` 13; `pupd_y` is the `pupd` macro
argument (`Y` keeps offset `r`, `N` yields the `-1` sentinel);
`lock_bit`, `hsm_bit` and `lpmd_bit` are set to `-1`.  The macro ignores its
`e_io_hv` and `e_pbias_buf` arguments, and every field it never mentions
(`odrain_bit`, `ioreset_bit`, `rcv_sel_bit`, the `pad_*` trio and
`parked_bitmask`) is zero by C static-initializer semantics.  The drive
fields come last, overriding the `.drv_reg = -1` the pin entry sets first. -/
def PINGROUP (name : String) (pins : List Nat) (f0 f1 f2 f3 : Nat)
    (r bank : Int) (pupd_y : Bool)
    (_e_io_hv e_lpbk e_input e_lpdr _e_pbias_buf gpio_sfio_sel schmitt_b : Int)
    (drive : drv_entry) : tegra_pingroup where
  name := name
  pins := pins
  npins := pins.length
  funcs := [f0, f1, f2, f3]
  mux_reg := r
  mux_bank := bank
  mux_bit := 0
  pupd_reg := if pupd_y then r else -1
  pupd_bank := bank
  pupd_bit := 2
  tri_reg := r
  tri_bank := bank
  tri_bit := 4
  einput_bit := e_input
  odrain_bit := 0
  lock_bit := -1
  ioreset_bit := 0
  rcv_sel_bit := 0
  lpbk_reg := r
  lpbk_bank := bank
  lpbk_bit := e_lpbk
  hsm_bit := -1
  schmitt_bit := schmitt_b
  lpmd_bit := -1
  drvdn_bit := drive.drvdn_bit
  drvdn_width := drive.drvdn_width
  drvup_bit := drive.drvup_bit
  drvup_width := drive.drvup_width
  slwf_bit := drive.slwf_bit
  slwf_width := drive.slwf_width
  slwr_bit := drive.slwr_bit
  slwr_width := drive.slwr_width
  drvtype_bit := 13
  drv_reg := drive.drv_reg
  drv_bank := drive.drv_bank
  sfsel_bit := gpio_sfio_sel
  lpdr_bit := e_lpdr
  pad_reg := 0
  pad_bank := 0
  pad_bit := 0
  parked_bitmask := 0

/-- tegra234_groups row `touch_clk_pcc4` (pin TEGRA_PIN_TOUCH_CLK_PCC4 = 201,
functions GP, TOUCH, RSVD2, RSVD3; drive entry `drive_touch_clk_pcc4`). -/
def tegra234_touch_clk_pcc4 : tegra_pingroup :=
  PINGROUP "touch_clk_pcc4" [201] TEGRA_MUX_GP TEGRA_MUX_TOUCH TEGRA_MUX_RSVD2
    TEGRA_MUX_RSVD3 0x2000 1 true 5 7 6 8 (-1) 10 12
    (DRV_PINGROUP_ENTRY_Y 0x2004 12 5 20 5 (-1) (-1) (-1) (-1) 1)

/-- tegra234_groups row `eqos_comp` (pin TEGRA_PIN_EQOS_COMP = 217): mux
register present at 0x15050 but `gpio_sfio_sel` (hence `sfsel_bit`) is the
`-1` sentinel, as are all its other optional bits. -/
def tegra234_eqos_comp : tegra_pingroup :=
  PINGROUP "eqos_comp" [217] TEGRA_MUX_EQOS TEGRA_MUX_RSVD1 TEGRA_MUX_RSVD2
    TEGRA_MUX_RSVD3 0x15050 0 false (-1) (-1) (-1) (-1) (-1) (-1) (-1)
    DRV_PINGROUP_ENTRY_N

/-- tegra234_groups row `qspi_comp` (pin TEGRA_PIN_QSPI_COMP = 218). -/
def tegra234_qspi_comp : tegra_pingroup :=
  PINGROUP "qspi_comp" [218] TEGRA_MUX_QSPI TEGRA_MUX_RSVD1 TEGRA_MUX_RSVD2
    TEGRA_MUX_RSVD3 0xB060 0 false (-1) (-1) (-1) (-1) (-1) (-1) (-1)
    DRV_PINGROUP_ENTRY_N

/-- tegra234_groups row `sdmmc1_comp` (pin TEGRA_PIN_SDMMC1_COMP = 219). -/
def tegra234_sdmmc1_comp : tegra_pingroup :=
  PINGROUP "sdmmc1_comp" [219] TEGRA_MUX_SDMMC1 TEGRA_MUX_RSVD1 TEGRA_MUX_RSVD2
    TEGRA_MUX_RSVD3 0x8010 0 false (-1) (-1) (-1) (-1) (-1) (-1) (-1)
    DRV_PINGROUP_ENTRY_N

/-- tegra234_pinctrl soc data: only `hsm_in_mux` is false. -/
def tegra234_pinctrl : tegra_pinctrl_soc_data where
  hsm_in_mux := false
  schmitt_in_mux := true
  drvtype_in_mux := true
  sfsel_in_mux := true

/-!
Concrete register files and fixture descriptors used as inputs of the
witness theorems below.
-/

/-- All registers zero. -/
def regs_zero : RegState := fun _ _ => 0

/-- All registers read 0xFF. -/
def regs_ff : RegState := fun _ _ => 0xFF

/-- All registers read 0x80 (bit 7 set). -/
def regs_80 : RegState := fun _ _ => 0x80

/-- Fixture: the touch_clk_pcc4 descriptor with a present lock bit (bit 7),
exercising the write-once lock latch; the tegra234 tables themselves leave
`lock_bit` at the `-1` sentinel on every group. -/
def lock_demo_group : tegra_pingroup :=
  { tegra234_touch_clk_pcc4 with lock_bit := 7 }

/-- Fixture: the touch_clk_pcc4 descriptor with parked bits 0 and 2
(`parked_bitmask = 5`); the tegra234 tables leave every `parked_bitmask`
zero. -/
def parked_demo_group : tegra_pingroup :=
  { tegra234_touch_clk_pcc4 with parked_bitmask := 5 }

/-- Fixture: the register state produced by selecting TOUCH (slot 1) on
touch_clk_pcc4 starting from all-zero registers. -/
def mux_demo_state : RegState :=
  pmx_writel regs_zero
    (((pmx_readl regs_zero 1 0x2000) &&& compl32 (3 <<< 0)) ||| 1 <<< 0 ||| 1 <<< 10)
    1 0x2000

/-- Fixture: driver state with registers reading 0xABCD and an all-zero
GPIO shadow area. -/
def pmx_demo_state : PmxState := ⟨fun _ _ => 0xABCD, fun _ => 0⟩

/-- Fixture: the GPIO shadow area after saving pin 201 of touch_clk_pcc4
from `pmx_demo_state`. -/
def pmx_demo_saved : PmxState :=
  ⟨pmx_demo_state.regs,
   fun p => if p = 201 then pmx_readl pmx_demo_state.regs 1 0x2000
            else pmx_demo_state.gpio_conf p⟩

/-- Fixture: driver state after the registers were arbitrarily rewritten
(all 0x7777) while the GPIO shadow area still holds the saved value. -/
def pmx_demo_scrambled : PmxState := ⟨fun _ _ => 0x7777, pmx_demo_saved.gpio_conf⟩

/-- Fixture: driver state after releasing the GPIO: the saved mux value is
written back over the scrambled registers. -/
def pmx_demo_restored : PmxState :=
  { pmx_demo_scrambled with
    regs := pmx_writel pmx_demo_scrambled.regs
      (pmx_demo_scrambled.gpio_conf 201) 1 0x2000 }

/-!
Bit-manipulation lemmas about the read-modify-write pattern shared by
`tegra_pinctrl_set_mux` and `tegra_pinconf_group_set`.
-/

theorem testBit_compl32 (m k : Nat) :
    (compl32 m).testBit k = (decide (k < 32) != m.testBit k) := by
  have h32 : (0xFFFFFFFF : Nat) = 2 ^ 32 - 1 := by norm_num
  rw [compl32, h32, Nat.testBit_xor, Nat.testBit_two_pow_sub_one]

/-- Writing a `w`-bit field at bit `b` (clear with the complemented shifted
mask, OR in the new value `a`, OR in any extra term `t` clear on the field's
bits) and reading the field back through a 32-bit read recovers `a`. -/
theorem field_set_extract (x a t b w : Nat) (hbw : b + w ≤ 32) (ha : a < 2 ^ w)
    (ht : ∀ j, j < w → t.testBit (b + j) = false) :
    ((((x &&& compl32 ((2 ^ w - 1) <<< b)) ||| a <<< b ||| t) % 2 ^ 32) >>> b)
      &&& (2 ^ w - 1) = a := by
  apply Nat.eq_of_testBit_eq
  intro j
  rw [Nat.testBit_and, Nat.testBit_shiftRight, Nat.testBit_mod_two_pow,
    Nat.testBit_or, Nat.testBit_or, Nat.testBit_and, testBit_compl32,
    Nat.testBit_shiftLeft, Nat.testBit_shiftLeft,
    Nat.testBit_two_pow_sub_one, Nat.testBit_two_pow_sub_one]
  rcases Nat.lt_or_ge j w with hj | hj
  · have hj32 : b + j < 32 := by omega
    have hble : b ≤ b + j := Nat.le_add_right b j
    have hsub : b + j - b = j := by omega
    rw [ht j hj, hsub]
    simp [hj, hj32, hble]
  · have hA : a.testBit j = false :=
      Nat.testBit_lt_two_pow (lt_of_lt_of_le ha (Nat.pow_le_pow_right (by omega) hj))
    have hjw : ¬ j < w := by omega
    simp [hjw, hA]

/-- Specialization used for the 2-bit mux field as `tegra_pinctrl_set_mux`
writes it, with the SFIO-select bit OR-ed in at position `c`. -/
theorem mux_field_extract (x i b c : Nat) (hi : i < 4) (hb : b + 2 ≤ 32)
    (hc0 : c ≠ b) (hc1 : c ≠ b + 1) :
    ((((x &&& compl32 (3 <<< b)) ||| i <<< b ||| 1 <<< c) % 2 ^ 32) >>> b)
      &&& 3 = i := by
  have h3 : (3 : Nat) = 2 ^ 2 - 1 := by norm_num
  have ht : ∀ j, j < 2 → ((1 : Nat) <<< c).testBit (b + j) = false := by
    intro j hj
    rw [Nat.testBit_shiftLeft]
    rcases Nat.lt_or_ge (b + j) c with h | h
    · simp [Nat.not_le.mpr h]
    · have hz : (1 : Nat).testBit (b + j - c) = false := by
        have hne : b + j - c ≠ 0 := by interval_cases j <;> omega
        rcases Nat.exists_eq_succ_of_ne_zero hne with ⟨k, hk⟩
        rw [hk]
        simp [Nat.testBit_succ]
      simp [hz]
  rw [h3]
  exact field_set_extract x i (1 <<< c) b 2 hb (by omega) ht

/-- Specialization for the mux field without the SFIO-select term
(`sfsel_in_mux` false). -/
theorem mux_field_extract_nosf (x i b : Nat) (hi : i < 4) (hb : b + 2 ≤ 32) :
    ((((x &&& compl32 (3 <<< b)) ||| i <<< b) % 2 ^ 32) >>> b) &&& 3 = i := by
  have h3 : (3 : Nat) = 2 ^ 2 - 1 := by norm_num
  have h := field_set_extract x i 0 b 2 hb (by omega) (by intro j hj; simp)
  rw [h3]
  simpa using h

/-- Reading back the location a write targeted yields the written value,
truncated to 32 bits. -/
theorem pmx_readl_writel_same (s : RegState) (v : Nat) (b r : Int) :
    pmx_readl (pmx_writel s v b r) b r = v % 2 ^ 32 := by
  simp [pmx_readl, pmx_writel]

/-- A write leaves every other register location untouched. -/
theorem pmx_writel_other (s : RegState) (v : Nat) (b r b' r' : Int)
    (h : ¬ (b' = b ∧ r' = r)) : pmx_writel s v b r b' r' = s b' r' := by
  simp only [pmx_writel, if_neg h]

/-- Reads are 32-bit: they are bounded by 2^32. -/
theorem pmx_readl_lt (s : RegState) (b r : Int) : pmx_readl s b r < 2 ^ 32 :=
  Nat.mod_lt _ (by norm_num)

/-- Clearing a mask out of a 32-bit value zeroes exactly the mask's bits and
keeps every other bit. -/
theorem and_compl32_testBit (a m : Nat) (ha : a < 2 ^ 32) (j : Nat) :
    (a &&& compl32 m).testBit j = if m.testBit j then false else a.testBit j := by
  rw [Nat.testBit_and, testBit_compl32]
  rcases Nat.lt_or_ge j 32 with hj | hj
  · cases hm : m.testBit j <;> simp [hj, hm]
  · have hA : a.testBit j = false :=
      Nat.testBit_lt_two_pow (lt_of_lt_of_le ha (Nat.pow_le_pow_right (by omega) hj))
    have : ¬ j < 32 := by omega
    cases hm : m.testBit j <;> simp [this, hA]

/-- The C scan `for (i = 0; i < 4; i++) if (g->funcs[i] == function) break;`
stops at index `i` exactly when slot `i` holds the function and no earlier
slot does. -/
theorem findIdx_eq_of_get? {l : List Nat} {f i : Nat}
    (hslot : l.get? i = some f) (hfirst : ∀ j, j < i → l.get? j ≠ some f) :
    l.findIdx (· == f) = i := by
  induction l generalizing i with
  | nil => simp at hslot
  | cons a t ih =>
    cases i with
    | zero =>
      simp only [List.get?_cons_zero, Option.some_inj] at hslot
      simp [List.findIdx_cons, hslot]
    | succ j =>
      have ha : a ≠ f := by
        intro h
        exact hfirst 0 (Nat.succ_pos j) (by simp [h])
      have ht : t.findIdx (· == f) = j :=
        ih (by simpa using hslot)
          (fun k hk => by
            have := hfirst (k + 1) (by omega)
            simpa using this)
      have hb : (a == f) = false := beq_eq_false_iff_ne.mpr ha
      simp [List.findIdx_cons, hb, ht]

/-- C3: on group touch_clk_pcc4, whose four function slots are
[GP, TOUCH, RSVD2, RSVD3], selecting TOUCH performs the read-modify-write
that stores slot index 1 in the 2-bit mux field (reading the function-select
parameter back yields 1, with the SFIO-select bit also asserted), while
selecting CAN0 — a function not among the group's four candidates — fails
with the function-not-applicable `-EINVAL` error. -/
theorem touch_clk_pcc4_mux_scenario (s : RegState) :
    (tegra_pinctrl_set_mux tegra234_pinctrl tegra234_touch_clk_pcc4
        TEGRA_MUX_TOUCH s =
      .ok (pmx_writel s
        (((pmx_readl s 1 0x2000) &&& compl32 (3 <<< 0)) ||| 1 <<< 0 ||| 1 <<< 10)
        1 0x2000) ∧
     tegra_pinconf_group_get tegra234_pinctrl tegra234_touch_clk_pcc4
       (pmx_writel s
         (((pmx_readl s 1 0x2000) &&& compl32 (3 <<< 0)) ||| 1 <<< 0 ||| 1 <<< 10)
         1 0x2000) Param.func = some 1) ∧
    tegra_pinctrl_set_mux tegra234_pinctrl tegra234_touch_clk_pcc4
      TEGRA_MUX_CAN0 s = .einval := by
  refine ⟨⟨rfl, ?_⟩, rfl⟩
  have hval : pmx_readl
      (pmx_writel s
        (((pmx_readl s 1 0x2000) &&& compl32 (3 <<< 0)) ||| 1 <<< 0 ||| 1 <<< 10)
        1 0x2000) 1 0x2000 =
      ((((pmx_readl s 1 0x2000) &&& compl32 (3 <<< 0)) ||| 1 <<< 0 ||| 1 <<< 10)) %
        2 ^ 32 := rfl
  have hx := mux_field_extract (pmx_readl s 1 0x2000) 1 0 10 (by omega) (by omega)
    (by omega) (by omega)
  simp only [Nat.zero_add] at hx
  show some (((pmx_readl
      (pmx_writel s _ 1 0x2000) 1 0x2000 >>> 0) &&& 3) % 2 ^ 16) = some 1
  rw [hval, hx]
  norm_num

/-- C10: the tegra234 catalog has `sfsel_in_mux` set, so
`tegra_pinctrl_set_mux` unconditionally computes `1 << g->sfsel_bit`; yet
the groups eqos_comp, qspi_comp and sdmmc1_comp pass the function's
precondition (mux register present, requested function among the four
slots) while their `sfsel_bit` is the `-1` sentinel, so the C code shifts by
a negative amount — undefined behavior, modelled by the `undef` outcome. -/
theorem tegra234_sfsel_negative_shift_bug :
    tegra234_pinctrl.sfsel_in_mux = true ∧
    (0 ≤ tegra234_eqos_comp.mux_reg ∧ tegra234_eqos_comp.sfsel_bit = -1 ∧
      tegra_pinctrl_set_mux tegra234_pinctrl tegra234_eqos_comp
        TEGRA_MUX_EQOS regs_zero = .undef) ∧
    (0 ≤ tegra234_qspi_comp.mux_reg ∧ tegra234_qspi_comp.sfsel_bit = -1 ∧
      tegra_pinctrl_set_mux tegra234_pinctrl tegra234_qspi_comp
        TEGRA_MUX_QSPI regs_zero = .undef) ∧
    (0 ≤ tegra234_sdmmc1_comp.mux_reg ∧ tegra234_sdmmc1_comp.sfsel_bit = -1 ∧
      tegra_pinctrl_set_mux tegra234_pinctrl tegra234_sdmmc1_comp
        TEGRA_MUX_SDMMC1 regs_zero = .undef) :=
  ⟨rfl, ⟨by decide, rfl, rfl⟩, ⟨by decide, rfl, rfl⟩, ⟨by decide, rfl, rfl⟩⟩

/-- C2 counterexample: the group eqos_comp has a present mux register
(0x15050) and EQOS in slot 0, yet selecting EQOS on it reaches the
`1 << g->sfsel_bit` shift with `sfsel_bit = -1` — C undefined behavior —
so no defined mux-field write (let alone one a getter reads back as the
slot index) takes place. -/
theorem set_mux_roundtrip_cex :
    tegra234_eqos_comp.mux_reg = 0x15050 ∧
    tegra234_eqos_comp.funcs =
      [TEGRA_MUX_EQOS, TEGRA_MUX_RSVD1, TEGRA_MUX_RSVD2, TEGRA_MUX_RSVD3] ∧
    tegra_pinctrl_set_mux tegra234_pinctrl tegra234_eqos_comp
      TEGRA_MUX_EQOS regs_zero = .undef :=
  ⟨rfl, rfl, rfl⟩

/-- C1 counterexample: a two-element batch on touch_clk_pcc4 whose first
config fails (lock is unsupported there: `lock_bit = -1`) and whose second
config (tristate := 1) would succeed on its own.  The code returns the first
error with the register state untouched — the tristate write is NOT applied
— so a failure aborts the whole batch instead of continuing with the
subsequent parameters. -/
theorem group_set_batch_cex :
    tegra_pinconf_group_set tegra234_pinctrl tegra234_touch_clk_pcc4
      [(Param.lock, 1), (Param.tristate, 1)] regs_zero =
      (some SetErr.unsupported, regs_zero) ∧
    ((tegra_pinconf_group_set tegra234_pinctrl tegra234_touch_clk_pcc4
      [(Param.tristate, 1)] regs_zero).2 1 0x2000).testBit 4 = true :=
  ⟨rfl, by decide⟩

/-- C5 counterexample: setting pad-power with raw argument 5 on
touch_clk_pcc4 (where the parameter resolves to bank 0, reg 0, bit 0)
succeeds, but reading pad-power back yields 1, not the original argument 5:
the setter's C `!` inversion collapses 5 to 0 and the getter re-inverts the
stored bit to 1. -/
theorem pad_power_roundtrip_cex :
    (tegra_pinconf_group_set tegra234_pinctrl tegra234_touch_clk_pcc4
      [(Param.pad_power, 5)] regs_zero).1 = none ∧
    tegra_pinconf_group_get tegra234_pinctrl tegra234_touch_clk_pcc4
      (tegra_pinconf_group_set tegra234_pinctrl tegra234_touch_clk_pcc4
        [(Param.pad_power, 5)] regs_zero).2 Param.pad_power = some 1 ∧
    (1 : Nat) ≠ 5 :=
  ⟨rfl, by decide, by decide⟩

/-- C6 counterexample: pad-power is a 1-bit parameter, and setting it with
the nonzero argument 5 does not fail the range check — but it writes 0, not
1, into the 1-bit field, because the pad-power `!` inversion runs before the
width-1 truthiness coercion. -/
theorem width1_coercion_cex :
    tegra_pinconf_reg tegra234_pinctrl tegra234_touch_clk_pcc4
      Param.pad_power = some ⟨0, 0, 0, 1⟩ ∧
    (tegra_pinconf_group_set tegra234_pinctrl tegra234_touch_clk_pcc4
      [(Param.pad_power, 5)] regs_zero).1 = none ∧
    (((tegra_pinconf_group_set tegra234_pinctrl tegra234_touch_clk_pcc4
      [(Param.pad_power, 5)] regs_zero).2) 0 0).testBit 0 = false :=
  ⟨rfl, rfl, by decide⟩

/-- C7: when a parameter resolves to the absent sentinel on a group
(`tegra_pinconf_reg` reports not-supported), both the getter and the setter
surface exactly that outcome, and the register state — for any state
whatsoever, so no register is consulted — is left untouched. -/
theorem unsupported_no_reg_access (pmx : tegra_pinctrl_soc_data)
    (g : tegra_pingroup) (param : Param) (arg : Nat) (s : RegState)
    (h : tegra_pinconf_reg pmx g param = none) :
    tegra_pinconf_group_get pmx g s param = none ∧
    tegra_pinconf_group_set pmx g [(param, arg)] s =
      (some SetErr.unsupported, s) := by
  constructor
  · simp only [tegra_pinconf_group_get, h]
  · simp only [tegra_pinconf_group_set, tegra_pinconf_group_set_one, h]

/-- C4: whenever the group's lock bit currently reads 1, setting LOCK to 0
fails with the lock-cannot-be-cleared error and performs no register write
(the returned state is the input state). -/
theorem group_set_lock_clear_rejected (pmx : tegra_pinctrl_soc_data)
    (g : tegra_pingroup) (s : RegState)
    (hreg : 0 ≤ g.mux_reg) (hbit : 0 ≤ g.lock_bit)
    (hlocked : pmx_readl s g.mux_bank g.mux_reg &&& (1 <<< g.lock_bit.toNat) ≠ 0) :
    tegra_pinconf_group_set pmx g [(Param.lock, 0)] s =
      (some SetErr.lockCannotBeCleared, s) := by
  have hres : tegra_pinconf_reg pmx g Param.lock =
      some ⟨g.mux_bank, g.mux_reg, g.lock_bit, 1⟩ := by
    simp only [tegra_pinconf_reg]
    rw [if_neg]
    omega
  simp only [tegra_pinconf_group_set, tegra_pinconf_group_set_one, hres]
  rw [if_pos ⟨trivial, hlocked, by decide⟩]

/-- C6 (amended): for every parameter other than pad-power whose bit width
resolves to 1 on a group, setting it with any nonzero (16-bit) argument is
coerced to the canonical boolean 1 before the range check: the call does not
fail with the range error, and the 1-bit field is written with 1. -/
theorem width1_coercion (pmx : tegra_pinctrl_soc_data) (g : tegra_pingroup)
    (param : Param) (arg : Nat) (s : RegState) (loc : RegLoc)
    (hres : tegra_pinconf_reg pmx g param = some loc) (hw : loc.width = 1)
    (hpad : param ≠ Param.pad_power) (ha0 : arg ≠ 0) (ha16 : arg < 2 ^ 16) :
    (tegra_pinconf_group_set pmx g [(param, arg)] s).1 = none ∧
    (((tegra_pinconf_group_set pmx g [(param, arg)] s).2) loc.bank loc.reg).testBit
      loc.bit.toNat = true := by
  have hmod : arg % 2 ^ 16 = arg := Nat.mod_eq_of_lt ha16
  have hone : tegra_pinconf_group_set_one pmx g param arg s =
      .ok (pmx_writel s
        ((pmx_readl s loc.bank loc.reg &&&
            compl32 (((1 <<< loc.width.toNat) - 1) <<< loc.bit.toNat))
          ||| 1 <<< loc.bit.toNat) loc.bank loc.reg) := by
    simp only [tegra_pinconf_group_set_one, hmod, if_neg hpad, hres]
    rw [if_neg (fun hcontra => ha0 hcontra.2.2)]
    rw [if_pos hw, if_neg ha0]
    have hmask : (1 <<< loc.width.toNat) - 1 = 1 := by
      rw [hw]; rfl
    rw [hmask]
    rw [if_neg (by decide)]
  rw [show tegra_pinconf_group_set pmx g [(param, arg)] s =
      match tegra_pinconf_group_set_one pmx g param arg s with
      | .error e => (some e, s)
      | .ok s' => tegra_pinconf_group_set pmx g [] s' from rfl, hone]
  refine ⟨rfl, ?_⟩
  show ((pmx_writel s _ loc.bank loc.reg) loc.bank loc.reg).testBit _ = true
  rw [show (pmx_writel s
        ((pmx_readl s loc.bank loc.reg &&&
            compl32 (((1 <<< loc.width.toNat) - 1) <<< loc.bit.toNat))
          ||| 1 <<< loc.bit.toNat) loc.bank loc.reg) loc.bank loc.reg =
      ((pmx_readl s loc.bank loc.reg &&&
          compl32 (((1 <<< loc.width.toNat) - 1) <<< loc.bit.toNat))
        ||| 1 <<< loc.bit.toNat) from if_pos ⟨rfl, rfl⟩]
  simp [Nat.testBit_or, Nat.testBit_shiftLeft]

/-- C1 (amended): when a parameter partway through a batch fails, the
register writes of the earlier, successful parameters are kept (the final
state is exactly the state those writes produced), but the failing
parameter's error is returned immediately: neither it nor any subsequent
parameter of the batch is applied. -/
theorem group_set_first_error_aborts (pmx : tegra_pinctrl_soc_data)
    (g : tegra_pingroup) (cs1 : List (Param × Nat)) (c : Param × Nat)
    (cs2 : List (Param × Nat)) (s s1 : RegState) (e : SetErr)
    (h1 : tegra_pinconf_group_set pmx g cs1 s = (none, s1))
    (h2 : tegra_pinconf_group_set_one pmx g c.1 c.2 s1 = .error e) :
    tegra_pinconf_group_set pmx g (cs1 ++ c :: cs2) s = (some e, s1) := by
  obtain ⟨p, a⟩ := c
  induction cs1 generalizing s with
  | nil =>
    simp only [tegra_pinconf_group_set, Prod.mk.injEq] at h1
    obtain ⟨-, h1⟩ := h1
    subst h1
    simp only [List.nil_append, tegra_pinconf_group_set, h2]
  | cons c0 t ih =>
    obtain ⟨p0, a0⟩ := c0
    simp only [tegra_pinconf_group_set] at h1 ⊢
    cases hone : tegra_pinconf_group_set_one pmx g p0 a0 s with
    | error e0 =>
      rw [hone] at h1
      simp at h1
    | ok s' =>
      rw [hone] at h1
      exact ih s' h1

/-- Round trip of a 1-bit field through the setter's read-modify-write and
the getter's shift-and-mask. -/
theorem pad_bit_roundtrip (x b : Nat) (hb : b + 1 ≤ 32) (a : Nat) (ha : a < 2) :
    ((((x &&& compl32 (1 <<< b)) ||| a <<< b) % 2 ^ 32) >>> b) &&& 1 = a := by
  have h := field_set_extract x a 0 b 1 hb ha (by intro j hj; simp)
  rw [show ((2 : Nat) ^ 1 - 1) = 1 from rfl] at h
  simpa only [Nat.or_zero] using h

/-- Evaluation of the getter at a resolving function-select parameter. -/
theorem group_get_func (pmx : tegra_pinctrl_soc_data) (g : tegra_pingroup)
    (loc : RegLoc) (s : RegState)
    (hres : tegra_pinconf_reg pmx g Param.func = some loc) :
    tegra_pinconf_group_get pmx g s Param.func =
      some (((pmx_readl s loc.bank loc.reg >>> loc.bit.toNat) &&&
        ((1 <<< loc.width.toNat) - 1)) % 2 ^ 16) := by
  unfold tegra_pinconf_group_get
  rw [hres]
  rfl

/-- Evaluation of the getter at a resolving pad-power parameter: the
extracted bit is inverted. -/
theorem group_get_pad (pmx : tegra_pinctrl_soc_data) (g : tegra_pingroup)
    (loc : RegLoc) (s : RegState)
    (hres : tegra_pinconf_reg pmx g Param.pad_power = some loc) :
    tegra_pinconf_group_get pmx g s Param.pad_power =
      some (if ((pmx_readl s loc.bank loc.reg >>> loc.bit.toNat) &&&
          ((1 <<< loc.width.toNat) - 1)) % 2 ^ 16 = 0 then 1 else 0) := by
  unfold tegra_pinconf_group_get
  rw [hres]
  rfl

/-- C5 (amended): for every group on which pad-power resolves (with its bit
inside the 32-bit register) and every boolean raw argument (0 or 1), setting
pad-power and reading it back returns the same argument: the setter's
inversion and the getter's inversion cancel even though the stored bit is
physically inverted.  (For arguments larger than 1 the getter returns the
canonical boolean 1 instead, see the counterexample.) -/
theorem pad_power_roundtrip_bool (pmx : tegra_pinctrl_soc_data)
    (g : tegra_pingroup) (s : RegState) (a : Nat)
    (hreg : 0 ≤ g.pad_reg) (hbit : 0 ≤ g.pad_bit)
    (hbit32 : g.pad_bit.toNat + 1 ≤ 32) (ha : a < 2) :
    (tegra_pinconf_group_set pmx g [(Param.pad_power, a)] s).1 = none ∧
    tegra_pinconf_group_get pmx g
      (tegra_pinconf_group_set pmx g [(Param.pad_power, a)] s).2
      Param.pad_power = some a := by
  have hres : tegra_pinconf_reg pmx g Param.pad_power =
      some ⟨g.pad_bank, g.pad_reg, g.pad_bit, 1⟩ := by
    simp only [tegra_pinconf_reg]
    rw [if_neg]
    omega
  interval_cases a
  · have hone : tegra_pinconf_group_set_one pmx g Param.pad_power 0 s =
        .ok (pmx_writel s
          ((pmx_readl s g.pad_bank g.pad_reg &&& compl32 (1 <<< g.pad_bit.toNat))
            ||| 1 <<< g.pad_bit.toNat) g.pad_bank g.pad_reg) := by
      unfold tegra_pinconf_group_set_one
      rw [hres]
      dsimp only
      simp
      try decide
    rw [show tegra_pinconf_group_set pmx g [(Param.pad_power, 0)] s =
        match tegra_pinconf_group_set_one pmx g Param.pad_power 0 s with
        | .error e => (some e, s)
        | .ok s2 => tegra_pinconf_group_set pmx g [] s2 from rfl, hone]
    refine ⟨rfl, ?_⟩
    rw [group_get_pad pmx g _ _ hres]
    show some (if ((pmx_readl (pmx_writel s _ g.pad_bank g.pad_reg)
        g.pad_bank g.pad_reg >>> g.pad_bit.toNat) &&& 1) % 2 ^ 16 = 0
      then 1 else 0) = some 0
    rw [pmx_readl_writel_same]
    rw [pad_bit_roundtrip (pmx_readl s g.pad_bank g.pad_reg)
      g.pad_bit.toNat hbit32 1 (by omega)]
    rfl
  · have hone : tegra_pinconf_group_set_one pmx g Param.pad_power 1 s =
        .ok (pmx_writel s
          ((pmx_readl s g.pad_bank g.pad_reg &&& compl32 (1 <<< g.pad_bit.toNat))
            ||| 0 <<< g.pad_bit.toNat) g.pad_bank g.pad_reg) := by
      unfold tegra_pinconf_group_set_one
      rw [hres]
      dsimp only
      simp
      try decide
    rw [show tegra_pinconf_group_set pmx g [(Param.pad_power, 1)] s =
        match tegra_pinconf_group_set_one pmx g Param.pad_power 1 s with
        | .error e => (some e, s)
        | .ok s2 => tegra_pinconf_group_set pmx g [] s2 from rfl, hone]
    refine ⟨rfl, ?_⟩
    rw [group_get_pad pmx g _ _ hres]
    show some (if ((pmx_readl (pmx_writel s _ g.pad_bank g.pad_reg)
        g.pad_bank g.pad_reg >>> g.pad_bit.toNat) &&& 1) % 2 ^ 16 = 0
      then 1 else 0) = some 1
    rw [pmx_readl_writel_same]
    rw [pad_bit_roundtrip (pmx_readl s g.pad_bank g.pad_reg)
      g.pad_bit.toNat hbit32 0 (by omega)]
    rfl

/-- C2 (amended): for every group with a present mux register whose mux bit
is well-formed (nonnegative, 2-bit field inside the 32-bit register) and —
when the catalog routes SFIO selection through the mux register — whose
SFIO-select bit is present and disjoint from the mux field, selecting the
function held in slot `i` (with no earlier slot holding it) writes slot
index `i` into the 2-bit mux field: reading the function-select parameter
back afterwards returns `i`. -/
theorem set_mux_roundtrip (pmx : tegra_pinctrl_soc_data) (g : tegra_pingroup)
    (s s' : RegState) (f i : Nat)
    (hreg : 0 ≤ g.mux_reg) (hbit : 0 ≤ g.mux_bit)
    (hbit32 : g.mux_bit.toNat + 2 ≤ 32)
    (hi : i < 4) (hlen : g.funcs.length = 4)
    (hslot : g.funcs.get? i = some f)
    (hfirst : ∀ j, j < i → g.funcs.get? j ≠ some f)
    (hsf : pmx.sfsel_in_mux = true →
      0 ≤ g.sfsel_bit ∧ g.sfsel_bit.toNat ≠ g.mux_bit.toNat ∧
        g.sfsel_bit.toNat ≠ g.mux_bit.toNat + 1)
    (hset : tegra_pinctrl_set_mux pmx g f s = .ok s') :
    tegra_pinconf_group_get pmx g s' Param.func = some i := by
  have hfind : g.funcs.findIdx (· == f) = i := findIdx_eq_of_get? hslot hfirst
  have hres : tegra_pinconf_reg pmx g Param.func =
      some ⟨g.mux_bank, g.mux_reg, g.mux_bit, 2⟩ := by
    simp only [tegra_pinconf_reg]
    rw [if_neg]
    omega
  have hmask : ((1 <<< ((2 : Int)).toNat) - 1 : Nat) = 3 := rfl
  have hi16 : i % 2 ^ 16 = i := Nat.mod_eq_of_lt (lt_trans hi (by norm_num))
  unfold tegra_pinctrl_set_mux at hset
  rw [if_neg (by omega)] at hset
  simp only [hfind] at hset
  rw [if_neg (by omega)] at hset
  rw [if_neg (by omega)] at hset
  cases hsfm : pmx.sfsel_in_mux with
  | true =>
    obtain ⟨hsb, hne1, hne2⟩ := hsf hsfm
    rw [hsfm] at hset
    rw [if_neg (by simp; omega)] at hset
    rw [if_pos rfl] at hset
    have hW : s' = pmx_writel s
        (((pmx_readl s g.mux_bank g.mux_reg &&& compl32 (3 <<< g.mux_bit.toNat))
          ||| i <<< g.mux_bit.toNat) ||| 1 <<< g.sfsel_bit.toNat)
        g.mux_bank g.mux_reg := by
      cases hset
      rfl
    subst hW
    rw [group_get_func pmx g _ _ hres]
    show some (((pmx_readl (pmx_writel s _ g.mux_bank g.mux_reg)
        g.mux_bank g.mux_reg >>> g.mux_bit.toNat) &&&
        ((1 <<< ((2 : Int)).toNat) - 1)) % 2 ^ 16) = some i
    rw [pmx_readl_writel_same, hmask]
    rw [mux_field_extract (pmx_readl s g.mux_bank g.mux_reg) i
      g.mux_bit.toNat g.sfsel_bit.toNat hi hbit32 hne1 hne2]
    rw [hi16]
  | false =>
    rw [hsfm] at hset
    rw [if_neg (by simp)] at hset
    rw [if_neg (by simp)] at hset
    have hW : s' = pmx_writel s
        ((pmx_readl s g.mux_bank g.mux_reg &&& compl32 (3 <<< g.mux_bit.toNat))
          ||| i <<< g.mux_bit.toNat)
        g.mux_bank g.mux_reg := by
      cases hset
      rfl
    subst hW
    rw [group_get_func pmx g _ _ hres]
    show some (((pmx_readl (pmx_writel s _ g.mux_bank g.mux_reg)
        g.mux_bank g.mux_reg >>> g.mux_bit.toNat) &&&
        ((1 <<< ((2 : Int)).toNat) - 1)) % 2 ^ 16) = some i
    rw [pmx_readl_writel_same, hmask]
    rw [mux_field_extract_nosf (pmx_readl s g.mux_bank g.mux_reg) i
      g.mux_bit.toNat hi hbit32]
    rw [hi16]

/-- Processing groups that do not target a given (bank, reg) leaves that
register untouched. -/
theorem clear_parked_bits_untouched (gs : List tegra_pingroup) (s : RegState)
    (b r : Int)
    (h : ∀ g ∈ gs, 0 < g.parked_bitmask →
      ¬ (parked_bank g = b ∧ parked_reg g = r)) :
    tegra_pinctrl_clear_parked_bits gs s b r = s b r := by
  induction gs generalizing s with
  | nil => rfl
  | cons g t ih =>
    simp only [tegra_pinctrl_clear_parked_bits]
    by_cases hm : g.parked_bitmask > 0
    · rw [if_pos hm]
      rw [ih _ (fun g' hg' => h g' (List.mem_cons_of_mem g hg'))]
      exact pmx_writel_other _ _ _ _ _ _
        (fun hc => h g (List.mem_cons_self g t) hm ⟨hc.1.symm, hc.2.symm⟩)
    · rw [if_neg hm]
      exact ih _ (fun g' hg' => h g' (List.mem_cons_of_mem g hg'))

/-- The parked-bit pass processes the group list left to right. -/
theorem clear_parked_bits_append (xs ys : List tegra_pingroup) (s : RegState) :
    tegra_pinctrl_clear_parked_bits (xs ++ ys) s =
      tegra_pinctrl_clear_parked_bits ys (tegra_pinctrl_clear_parked_bits xs s) := by
  induction xs generalizing s with
  | nil => rfl
  | cons g t ih =>
    simp only [List.cons_append, tegra_pinctrl_clear_parked_bits]
    exact ih _

/-- C8: after the parked-bit clearing pass over a duplicate-free group list
in which no other masked group targets the same register, the register
targeted by a group with a nonzero parked bitmask reads 0 at every bit
position of the bitmask, and every other bit is unchanged from its value
before the pass. -/
theorem clear_parked_bits_spec (gs : List tegra_pingroup) (s : RegState)
    (g : tegra_pingroup)
    (hmem : g ∈ gs) (hmask : 0 < g.parked_bitmask) (hnd : gs.Nodup)
    (huniq : ∀ h ∈ gs, 0 < h.parked_bitmask →
      parked_bank h = parked_bank g → parked_reg h = parked_reg g → h = g)
    (j : Nat) :
    (pmx_readl (tegra_pinctrl_clear_parked_bits gs s)
        (parked_bank g) (parked_reg g)).testBit j =
      (if g.parked_bitmask.testBit j then false
       else (pmx_readl s (parked_bank g) (parked_reg g)).testBit j) := by
  obtain ⟨l1, l2, rfl⟩ := List.append_of_mem hmem
  have hnd2 : l1.Disjoint (g :: l2) ∧ (g :: l2).Nodup := by
    rw [List.nodup_append] at hnd
    exact ⟨hnd.2.2, hnd.2.1⟩
  have hg1 : g ∉ l1 := fun hc => hnd2.1 hc (List.mem_cons_self g l2)
  have hg2 : g ∉ l2 := by
    have := hnd2.2
    rw [List.nodup_cons] at this
    exact this.1
  have huse : ∀ l : List tegra_pingroup, (∀ x ∈ l, x ∈ l1 ++ g :: l2 ∧ x ≠ g) →
      ∀ σ : RegState, tegra_pinctrl_clear_parked_bits l σ
        (parked_bank g) (parked_reg g) = σ (parked_bank g) (parked_reg g) := by
    intro l hl σ
    refine clear_parked_bits_untouched l σ _ _ (fun h' hh' hm' hc => ?_)
    obtain ⟨hmem', hne⟩ := hl h' hh'
    exact hne (huniq h' hmem' hm' hc.1 hc.2)
  rw [clear_parked_bits_append]
  have h1 : tegra_pinctrl_clear_parked_bits l1 s
      (parked_bank g) (parked_reg g) = s (parked_bank g) (parked_reg g) :=
    huse l1 (fun x hx => ⟨List.mem_append_left _ hx,
      fun hcx => hg1 (hcx ▸ hx)⟩) s
  simp only [tegra_pinctrl_clear_parked_bits]
  rw [if_pos hmask]
  simp only [pmx_readl]
  rw [huse l2 (fun x hx =>
    ⟨List.mem_append_right _ (List.mem_cons_of_mem g hx),
     fun hcx => hg2 (hcx ▸ hx)⟩)
    (pmx_writel (tegra_pinctrl_clear_parked_bits l1 s)
      ((tegra_pinctrl_clear_parked_bits l1 s
          (parked_bank g) (parked_reg g) % 2 ^ 32) &&& compl32 g.parked_bitmask)
      (parked_bank g) (parked_reg g))]
  rw [show (pmx_writel (tegra_pinctrl_clear_parked_bits l1 s)
      ((tegra_pinctrl_clear_parked_bits l1 s
          (parked_bank g) (parked_reg g) % 2 ^ 32) &&& compl32 g.parked_bitmask)
      (parked_bank g) (parked_reg g)) (parked_bank g) (parked_reg g) =
    (tegra_pinctrl_clear_parked_bits l1 s
        (parked_bank g) (parked_reg g) % 2 ^ 32) &&& compl32 g.parked_bitmask
    from if_pos ⟨rfl, rfl⟩]
  have hlt : (tegra_pinctrl_clear_parked_bits l1 s
      (parked_bank g) (parked_reg g) % 2 ^ 32) &&& compl32 g.parked_bitmask < 2 ^ 32 :=
    lt_of_le_of_lt Nat.and_le_left (Nat.mod_lt _ (by norm_num))
  rw [Nat.mod_eq_of_lt hlt]
  rw [h1]
  rw [and_compl32_testBit _ _ (Nat.mod_lt _ (by norm_num)) j]

/-- C9: for a pin owned by a single-pin group with a present mux register, a
GPIO request saves the group's mux register value; after arbitrary
intervening register writes (any replacement register file), the release
restores the mux register to the exact 32-bit value it held at request time,
SFIO-select bit included. -/
theorem gpio_save_restore (gs : List tegra_pingroup) (offset : Nat)
    (st : PmxState) (regs2 : RegState) (g : tegra_pingroup)
    (st1 st2 : PmxState)
    (hfind : find_single_pin_group gs offset = some g)
    (hmux : 0 ≤ g.mux_reg)
    (hsave : tegra_pinctrl_gpio_save_config gs offset st = .ok st1)
    (hrest : tegra_pinctrl_gpio_restore_config gs offset
      ⟨regs2, st1.gpio_conf⟩ = .ok st2) :
    pmx_readl st2.regs g.mux_bank g.mux_reg =
      pmx_readl st.regs g.mux_bank g.mux_reg := by
  unfold tegra_pinctrl_gpio_save_config at hsave
  rw [hfind] at hsave
  dsimp only at hsave
  rw [if_pos hmux] at hsave
  injection hsave with hsave
  subst hsave
  unfold tegra_pinctrl_gpio_restore_config at hrest
  rw [hfind] at hrest
  dsimp only at hrest
  rw [if_pos hmux] at hrest
  injection hrest with hrest
  subst hrest
  show pmx_readl (pmx_writel regs2 _ g.mux_bank g.mux_reg)
      g.mux_bank g.mux_reg = _
  rw [pmx_readl_writel_same]
  rw [if_pos rfl]
  exact Nat.mod_eq_of_lt (pmx_readl_lt _ _ _)

/-- Witness for the amended C1 theorem at a concrete batch: tristate
succeeds, lock (unsupported on touch_clk_pcc4) fails, pull is never
processed; the returned state is the one the tristate write produced. -/
theorem group_set_first_error_aborts_witness :
    tegra_pinconf_group_set tegra234_pinctrl tegra234_touch_clk_pcc4
      ([(Param.tristate, 1)] ++ (Param.lock, 1) :: [(Param.pull, 0)]) regs_zero =
      (some SetErr.unsupported,
        (tegra_pinconf_group_set tegra234_pinctrl tegra234_touch_clk_pcc4
          [(Param.tristate, 1)] regs_zero).2) :=
  group_set_first_error_aborts tegra234_pinctrl tegra234_touch_clk_pcc4
    [(Param.tristate, 1)] (Param.lock, 1) [(Param.pull, 0)] regs_zero
    (tegra_pinconf_group_set tegra234_pinctrl tegra234_touch_clk_pcc4
      [(Param.tristate, 1)] regs_zero).2 SetErr.unsupported rfl rfl

/-- Witness for the amended C2 theorem: selecting TOUCH (slot 1) on
touch_clk_pcc4 from all-zero registers, then reading function-select back,
yields 1. -/
theorem set_mux_roundtrip_witness :
    tegra_pinconf_group_get tegra234_pinctrl tegra234_touch_clk_pcc4
      mux_demo_state Param.func = some 1 :=
  set_mux_roundtrip tegra234_pinctrl tegra234_touch_clk_pcc4 regs_zero
    mux_demo_state TEGRA_MUX_TOUCH 1 (by decide) (by decide) (by decide)
    (by decide) rfl rfl (by decide)
    (fun _ => ⟨by decide, by decide, by decide⟩) rfl

/-- Witness for the C4 theorem on a descriptor with lock bit 7 and a
register state whose bit 7 reads 1. -/
theorem group_set_lock_clear_rejected_witness :
    tegra_pinconf_group_set tegra234_pinctrl lock_demo_group
      [(Param.lock, 0)] regs_80 = (some SetErr.lockCannotBeCleared, regs_80) :=
  group_set_lock_clear_rejected tegra234_pinctrl lock_demo_group regs_80
    (by decide) (by decide) (by decide)

/-- Witness for the amended C5 theorem at argument 1 on touch_clk_pcc4. -/
theorem pad_power_roundtrip_bool_witness :
    (tegra_pinconf_group_set tegra234_pinctrl tegra234_touch_clk_pcc4
      [(Param.pad_power, 1)] regs_zero).1 = none ∧
    tegra_pinconf_group_get tegra234_pinctrl tegra234_touch_clk_pcc4
      (tegra_pinconf_group_set tegra234_pinctrl tegra234_touch_clk_pcc4
        [(Param.pad_power, 1)] regs_zero).2 Param.pad_power = some 1 :=
  pad_power_roundtrip_bool tegra234_pinctrl tegra234_touch_clk_pcc4 regs_zero 1
    (by decide) (by decide) (by decide) (by decide)

/-- Witness for the amended C6 theorem: tristate (1-bit at bank 1, reg
0x2000, bit 4 on touch_clk_pcc4) set with argument 5 succeeds and writes
bit 4. -/
theorem width1_coercion_witness :
    (tegra_pinconf_group_set tegra234_pinctrl tegra234_touch_clk_pcc4
      [(Param.tristate, 5)] regs_zero).1 = none ∧
    (((tegra_pinconf_group_set tegra234_pinctrl tegra234_touch_clk_pcc4
      [(Param.tristate, 5)] regs_zero).2) 1 0x2000).testBit 4 = true :=
  width1_coercion tegra234_pinctrl tegra234_touch_clk_pcc4 Param.tristate 5
    regs_zero ⟨1, 0x2000, 4, 1⟩ rfl rfl (by decide) (by decide) (by decide)

/-- Witness for the C7 theorem: loopback on eqos_comp (whose lpbk bit is the
sentinel) is reported unsupported by getter and setter with the state
untouched. -/
theorem unsupported_no_reg_access_witness :
    tegra_pinconf_group_get tegra234_pinctrl tegra234_eqos_comp regs_zero
      Param.loopback = none ∧
    tegra_pinconf_group_set tegra234_pinctrl tegra234_eqos_comp
      [(Param.loopback, 1)] regs_zero = (some SetErr.unsupported, regs_zero) :=
  unsupported_no_reg_access tegra234_pinctrl tegra234_eqos_comp Param.loopback
    1 regs_zero rfl

/-- Witness for the C8 theorem: a group parked on bits 0 and 2 of its mux
register, starting from registers reading 0xFF — bit 0 is cleared, bit 3
keeps its prior value 1. -/
theorem clear_parked_bits_spec_witness :
    (pmx_readl (tegra_pinctrl_clear_parked_bits [parked_demo_group] regs_ff)
      (parked_bank parked_demo_group) (parked_reg parked_demo_group)).testBit 0 =
      false ∧
    (pmx_readl (tegra_pinctrl_clear_parked_bits [parked_demo_group] regs_ff)
      (parked_bank parked_demo_group) (parked_reg parked_demo_group)).testBit 3 =
      true := by
  have h := clear_parked_bits_spec [parked_demo_group] regs_ff parked_demo_group
    (List.mem_singleton_self _) (by decide) (List.nodup_singleton _)
    (fun h' hmem _ _ _ => List.mem_singleton.mp hmem)
  constructor
  · rw [h 0]
    decide
  · rw [h 3]
    decide

/-- Witness for the C9 theorem: pin 201 (touch_clk_pcc4), registers reading
0xABCD at request time, scrambled to 0x7777 in between, read 0xABCD again
after release. -/
theorem gpio_save_restore_witness :
    pmx_readl pmx_demo_restored.regs 1 0x2000 =
      pmx_readl pmx_demo_state.regs 1 0x2000 :=
  gpio_save_restore [tegra234_touch_clk_pcc4] 201 pmx_demo_state
    pmx_demo_scrambled.regs tegra234_touch_clk_pcc4 pmx_demo_saved
    pmx_demo_restored rfl (by decide) rfl rfl

end Tegra234
